import Mathlib

/-!
Verification of the stocker repository's core: trading-calendar gap
detection (`Stocker.findGaps`), the time-series merge engine
(`DuckDBBase.mergeParquet` / `StockDuckDBStorage.mergeDaily`), the ticker
store's metadata maintenance (`StockDuckDBStorage.updateMetadata`), the
update planner (`Stocker.updateSmart`, `Stocker.fetch`,
`FetchCommand.execute`), and the write-atomicity behaviour of
`writeParquet` / `mergeParquet`.

Calendar dates are modelled as natural numbers counting days since
1970-01-01 (the epoch used by the JavaScript `Date` objects in the source,
run in UTC). `daysFromCivil` converts a Gregorian calendar date
(year, month, day) to that day number, so that concrete dates from the
spec can be written readably. JavaScript's `date.getDay()` returns
0 = Sunday .. 6 = Saturday; 1970-01-01 was a Thursday (4), so the weekday
of day number `d` is `(d + 4) % 7`.
-/

namespace Stocker

/-- Days since 1970-01-01 of the Gregorian date y-m-d (valid for dates
from 1970 on, which keeps every intermediate value in `Nat`). Standard
civil-from-date computation. -/
def daysFromCivil (y m d : Nat) : Nat :=
  let y' := if m ≤ 2 then y - 1 else y
  let era := y' / 400
  let yoe := y' % 400
  let mp := (m + 9) % 12
  let doy := (153 * mp + 2) / 5 + d - 1
  let doe := yoe * 365 + yoe / 4 - yoe / 100 + doy
  era * 146097 + doe - 719468

/-- From `Stocker.findGaps` (config.ts): `isTradingDay` — a weekday, i.e.
`date.getDay()` is neither 0 (Sunday) nor 6 (Saturday). -/
def isTradingDay (d : Nat) : Bool :=
  (d + 4) % 7 ≠ 0 && (d + 4) % 7 ≠ 6

/-- Number of trading days in the window `[a, a + n)`. Used to express the
loop of `countTradingDaysBetween`, which counts day by day. -/
def wkCount : Nat → Nat → Nat
  | _, 0 => 0
  | a, n + 1 => (if isTradingDay a then 1 else 0) + wkCount (a + 1) n

/-- From `Stocker.findGaps` (config.ts): `countTradingDaysBetween(start, end)`
counts the trading days strictly between `s` and `e` (the loop starts at
`s + 1` and runs while the current day is `< e`). -/
def countTradingDaysBetween (s e : Nat) : Nat :=
  wkCount (s + 1) (e - (s + 1))

/-- From `Stocker.findGaps` (config.ts): `getNextTradingDay(date)` — step to
the next day, then keep stepping while the day is not a trading day. The
loop runs at most twice (a weekend has two days), so a fuel of 7 makes the
recursion structural without changing the result. -/
def nextTradingAux : Nat → Nat → Nat
  | 0, d => d
  | fuel + 1, d => if isTradingDay d then d else nextTradingAux fuel (d + 1)

def getNextTradingDay (d : Nat) : Nat :=
  nextTradingAux 7 (d + 1)

/-- From `Stocker.findGaps` (config.ts): the loop
`while (!isTradingDay(gapEnd) && gapEnd > gapStart) gapEnd--` that walks the
gap's end backwards off a weekend. Again fueled with 7, which the at most
two weekend days never exhaust. -/
def gapEndAux : Nat → Nat → Nat → Nat
  | 0, e, _ => e
  | fuel + 1, e, s => if !isTradingDay e && s < e then gapEndAux fuel (e - 1) s else e

/-- A detected gap: first missing trading day, last missing trading day,
and the count of missing trading days (`days`). -/
structure Gap where
  start : Nat
  end_ : Nat
  days : Nat
deriving DecidableEq, Repr

/-- One iteration body of `Stocker.findGaps` (config.ts): for the pair
(prev, curr) with `missing > 0`, the emitted gap starts at the next trading
day after `prev` and ends at `curr - 1` walked back off a weekend. -/
def mkGap (prev curr missing : Nat) : Gap :=
  { start := getNextTradingDay prev
    end_ := gapEndAux 7 (curr - 1) (getNextTradingDay prev)
    days := missing }

/-- The loop of `Stocker.findGaps` (config.ts) over consecutive pairs:
`prev` is `data[i-1]`, the list argument the remaining dates. -/
def findGapsAux : Nat → List Nat → List Gap
  | _, [] => []
  | prev, curr :: rest =>
      let missing := countTradingDaysBetween prev curr
      (if 0 < missing then [mkGap prev curr missing] else []) ++ findGapsAux curr rest

/-- Embedding of `Stocker.findGaps` (config.ts, lines 312–381): returns `[]` for fewer
than two dates, otherwise walks consecutive date pairs. -/
def findGaps : List Nat → List Gap
  | [] => []
  | [_] => []
  | d0 :: rest => findGapsAux d0 rest

/-- Trading days in the inclusive span `[a, b]`. -/
def weekdaysInSpan (a b : Nat) : Nat :=
  wkCount a (b + 1 - a)

/-- Embedding of `DuckDBBase.mergeParquet` (base.ts, lines 141–208), keyed on a column
`key`. The SQL is generic over the row shape, so the embedding is generic
over a row type `α` with a key projection. With an existing file the copy
is `existing WHERE key NOT IN (SELECT key FROM new) UNION ALL new,
ORDER BY key`; with no existing file the new rows are written as they are.
`ORDER BY` is modelled by sorting the combined rows on the key. -/
def mergeParquet {α : Type} (key : α → Nat) (existing : Option (List α))
    (newData : List α) : List α :=
  match existing with
  | some rows =>
      List.insertionSort (fun a b => key a ≤ key b)
        ((rows.filter fun r => decide (key r ∉ newData.map key)) ++ newData)
  | none => newData

/-- A row of the `stock_metadata` table (base.ts). `lastUpdate` stands for
the date part (day number) of the row's `last_update` timestamp. -/
structure Metadata where
  firstTradeDate : Nat
  lastTradeDate : Nat
  lastUpdate : Nat
  dataSource : String
  recordCount : Nat
deriving DecidableEq, Repr

/-- The per-symbol persisted state: the parquet file's rows (`none` when
the file is absent, so `storage.exists` is `series.isSome`) and the
symbol's `stock_metadata` row. -/
structure StoreState (α : Type) where
  series : Option (List α)
  metadata : Option Metadata
deriving DecidableEq, Repr

/-- Embedding of `StockDuckDBStorage.updateMetadata` (base.ts, lines 545–561): returns
without touching the row when `data` is empty; otherwise the first/last
trade dates are reduced from the **argument** `data` (starting from
`data[0].date`), the record count is `COUNT(*)` over the persisted parquet
file (passed here as `persistedCount`), and the row is replaced. -/
def updateMetadata {α : Type} (key : α → Nat) (now : Nat)
    (persistedCount : Nat) (data : List α) (old : Option Metadata) :
    Option Metadata :=
  match data with
  | [] => old
  | d0 :: _ =>
      some { firstTradeDate := data.foldl (fun m d => if key d < m then key d else m) (key d0)
             lastTradeDate := data.foldl (fun m d => if m < key d then key d else m) (key d0)
             lastUpdate := now
             dataSource := "eod"
             recordCount := persistedCount }

/-- Embedding of `StockDuckDBStorage.mergeDaily` (base.ts, lines 496–527): returns at
once when `newData` is empty; otherwise merges into the parquet file via
`mergeParquet` keyed on `date` and then runs `updateMetadata` with the
incoming rows. -/
def mergeDaily {α : Type} (key : α → Nat) (now : Nat) (st : StoreState α)
    (newData : List α) : StoreState α :=
  if newData.isEmpty then st
  else
    let merged := mergeParquet key st.series newData
    { series := some merged
      metadata := updateMetadata key now merged.length newData st.metadata }

/-- Embedding of `StockDuckDBStorage.writeDaily` (base.ts, lines 438–494): returns at
once when `data` is empty; otherwise overwrites the parquet file with
`data` and runs `updateMetadata` with the same rows. -/
def writeDaily {α : Type} (key : α → Nat) (now : Nat) (st : StoreState α)
    (data : List α) : StoreState α :=
  if data.isEmpty then st
  else
    { series := some data
      metadata := updateMetadata key now data.length data st.metadata }

/-- The storage decision of `Stocker.fetch` (config.ts, lines 160–185):
nothing is stored when the fetch returned zero rows; otherwise with
`update` set and existing data the rows are merged, else written. -/
def fetchStoreStep {α : Type} (key : α → Nat) (now : Nat) (update_ : Bool)
    (st : StoreState α) (data : List α) : StoreState α :=
  if data.isEmpty then st
  else if update_ && st.series.isSome then mergeDaily key now st data
  else writeDaily key now st data

/-- The options record `Stocker.fetch` receives (config.ts). -/
structure FetchOptions where
  start : Option Nat
  end_ : Option Nat
  update : Bool
deriving DecidableEq, Repr

/-- Arguments of the issued fetch: `Stocker.fetch` passes its `options` through verbatim to
`dataService.fetchDaily(symbol, options?.start, options?.end)`
(config.ts, lines 154–158); this gives the (start, end) pair of the fetch
actually issued. -/
def fetchDailyArgs (opts : Option FetchOptions) : Option Nat × Option Nat :=
  match opts with
  | none => (none, none)
  | some o => (o.start, o.end_)

/-- Embedding of `Stocker.updateSmart` (config.ts, lines 207–241): the fetch it decides
on. No existing file → `fetch(ticker)` with no options; gaps found in the
stored dates → `fetch(ticker, {update: true})` with no dates; otherwise,
for non-empty data, `fetch(ticker, {start: lastDate + 1 day, update:
true})`; empty data → no fetch. -/
def updateSmartPlan {α : Type} (key : α → Nat) (st : StoreState α) :
    Option FetchOptions :=
  match st.series with
  | none => some { start := none, end_ := none, update := false }
  | some data =>
      let dates := data.map key
      if 0 < (findGaps dates).length then
        some { start := none, end_ := none, update := true }
      else
        match dates.getLast? with
        | some last => some { start := some (last + 1), end_ := none, update := true }
        | none => none

/-- What `FetchCommand.execute` does for one ticker: either reports a skip
(with the message shown to the user) or calls `stocker.fetch` with the
options it assembled. -/
inductive CliAction
  | skip (message : String)
  | fetch (opts : FetchOptions)
deriving DecidableEq, Repr

/-- Embedding of `FetchCommand.execute` (fetch.ts, lines 76–105): skip when the data
exists, `--update` and `--force` are unset, and a metadata row exists;
otherwise start from the CLI's `--start`/`--end`, but with `--update` set
and existing data replace the start by the metadata's last-update
timestamp plus 24 hours (date part: `lastUpdate + 1`), and call
`stocker.fetch` with the result. -/
def fetchCommandAction {α : Type} (start end_ : Option Nat)
    (update force : Bool) (st : StoreState α) : CliAction :=
  let exists_ := st.series.isSome
  if exists_ && !update && !force && st.metadata.isSome then
    .skip "Already exists. Use --update or --force to fetch."
  else
    let startDate :=
      if update && exists_ then
        match st.metadata with
        | some m => some (m.lastUpdate + 1)
        | none => start
      else start
    .fetch { start := startDate, end_ := end_, update := update }

/-- Observable content of a file in the store: absent, incompletely
written (what a reader sees if the writer crashed mid-copy), or complete
with the given rows. -/
inductive FileContent (α : Type)
  | absent
  | truncated
  | complete (rows : List α)
deriving DecidableEq, Repr

/-- The two paths a write touches: the symbol's `daily.parquet`
(`target`) and the temporary `daily.parquet.tmp` (`temp`). -/
structure FS (α : Type) where
  target : FileContent α
  temp : FileContent α
deriving DecidableEq, Repr

/-- Primitive file-system events of `writeParquet` / `mergeParquet`: a
`COPY ... TO path` is two events (the file turns truncated while being
written, then complete), `fs.rename(tmp, target)` is one atomic event. A
crash is modelled by stopping after a prefix of the event list. -/
inductive WriteStep (α : Type)
  | copyBeginTemp
  | copyFinishTemp (rows : List α)
  | copyBeginTarget
  | copyFinishTarget (rows : List α)
  | renameTempToTarget
deriving DecidableEq, Repr

def applyStep {α : Type} (fs : FS α) : WriteStep α → FS α
  | .copyBeginTemp => { fs with temp := .truncated }
  | .copyFinishTemp rows => { fs with temp := .complete rows }
  | .copyBeginTarget => { fs with target := .truncated }
  | .copyFinishTarget rows => { fs with target := .complete rows }
  | .renameTempToTarget => { target := fs.temp, temp := .absent }

def runSteps {α : Type} (fs : FS α) (steps : List (WriteStep α)) : FS α :=
  steps.foldl applyStep fs

/-- The file-system events of `DuckDBBase.mergeParquet` (base.ts, lines
180–204): with an existing file, `COPY (...) TO tempPath` then
`fs.rename(tempPath, targetPath)`; with no existing file, `COPY` straight
to the target. -/
def mergeParquetSteps {α : Type} (key : α → Nat) (existing : Option (List α))
    (newData : List α) : List (WriteStep α) :=
  match existing with
  | some _ =>
      [.copyBeginTemp, .copyFinishTemp (mergeParquet key existing newData),
       .renameTempToTarget]
  | none => [.copyBeginTarget, .copyFinishTarget newData]

/-- The file-system events of `DuckDBBase.writeParquet` (base.ts, lines
50–128): a single `COPY tempTable TO outputPath` straight to the final
path — no temporary file, no rename. -/
def writeParquetSteps {α : Type} (rows : List α) : List (WriteStep α) :=
  [.copyBeginTarget, .copyFinishTarget rows]

end Stocker

namespace Stocker

lemma wkCount_add (m n a : Nat) :
    wkCount a (m + n) = wkCount a m + wkCount (a + m) n := by
  induction m generalizing a with
  | zero => simp [wkCount]
  | succ k ih =>
      have h1 : k + 1 + n = (k + n) + 1 := by omega
      rw [h1, wkCount, wkCount, ih (a + 1)]
      have h2 : a + 1 + k = a + (k + 1) := by omega
      rw [h2]
      omega

lemma chain_le_getLast (c : Nat) (l : List Nat)
    (h : List.Chain (· < ·) c l) : c ≤ (c :: l).getLast (by simp) := by
  induction l generalizing c with
  | nil => simp [List.getLast]
  | cons d l' ih =>
      obtain ⟨hcd, hch⟩ := List.chain_cons.1 h
      have hd := ih d hch
      rw [List.getLast_cons (by simp)]
      omega

lemma findGapsAux_days_pos (prev : Nat) (rest : List Nat) :
    ∀ g ∈ findGapsAux prev rest, 0 < g.days := by
  induction rest generalizing prev with
  | nil => simp [findGapsAux]
  | cons curr rest' ih =>
      intro g hg
      rw [findGapsAux, List.mem_append] at hg
      rcases hg with hg | hg
      · by_cases hm : 0 < countTradingDaysBetween prev curr
        · simp [hm] at hg
          subst hg
          exact hm
        · simp [hm] at hg
      · exact ih curr g hg

lemma findGapsAux_sum (prev : Nat) (rest : List Nat)
    (h : List.Chain (· < ·) prev rest) :
    ((findGapsAux prev rest).map Gap.days).sum
        + (rest.filter (fun d => isTradingDay d)).length
      = wkCount (prev + 1) ((prev :: rest).getLast (by simp) - prev) := by
  induction rest generalizing prev with
  | nil => simp [findGapsAux, List.getLast, wkCount]
  | cons curr rest' ih =>
      obtain ⟨hpc, hch⟩ := List.chain_cons.1 h
      have hcl : curr ≤ (curr :: rest').getLast (by simp) :=
        chain_le_getLast curr rest' hch
      have hrec := ih curr hch
      rw [List.getLast_cons (by simp)]
      set L := (curr :: rest').getLast (by simp) with hL
      -- decompose the span (prev, L] at curr
      have hsplit1 : L - prev = (curr - prev) + (L - curr) := by omega
      have hsplit2 : wkCount (prev + 1) (L - prev)
          = wkCount (prev + 1) (curr - prev) + wkCount (curr + 1) (L - curr) := by
        rw [hsplit1, wkCount_add]
        have : prev + 1 + (curr - prev) = curr + 1 := by omega
        rw [this]
      have hsplit3 : wkCount (prev + 1) (curr - prev)
          = countTradingDaysBetween prev curr
              + (if isTradingDay curr then 1 else 0) := by
        have h1 : curr - prev = (curr - (prev + 1)) + 1 := by omega
        rw [h1, wkCount_add]
        have h2 : prev + 1 + (curr - (prev + 1)) = curr := by omega
        rw [h2, countTradingDaysBetween]
        simp [wkCount]
      -- decompose the left-hand side at the head pair
      rw [findGapsAux, List.map_append, List.sum_append]
      have hgap : ((if 0 < countTradingDaysBetween prev curr
            then [mkGap prev curr (countTradingDaysBetween prev curr)]
            else []).map Gap.days).sum = countTradingDaysBetween prev curr := by
        by_cases hm : 0 < countTradingDaysBetween prev curr
        · simp [hm, mkGap]
        · simp [hm]
          omega
      rw [hgap]
      by_cases hc : isTradingDay curr
      · simp only [List.filter_cons, hc, if_pos, List.length_cons]
        simp only [hc, if_true] at hsplit3
        omega
      · simp only [List.filter_cons, hc, Bool.false_eq_true, if_false]
        simp only [hc, Bool.false_eq_true, if_false] at hsplit3
        omega

/-- C2: for the date sequence [2024-01-05, 2024-01-10], `findGaps` returns
exactly one gap, running 2024-01-08 through 2024-01-09 with `days = 2`. -/
theorem findGaps_jan2024 :
    findGaps [daysFromCivil 2024 1 5, daysFromCivil 2024 1 10] =
      [{ start := daysFromCivil 2024 1 8, end_ := daysFromCivil 2024 1 9, days := 2 }] := by
  decide

/-- C3: `findGaps` returns `[]` for sequences with fewer than two dates;
and for every ascending, deduplicated date sequence of length ≥ 2 every
reported gap has `days > 0`, and the sum of the gaps' `days` plus the
number of weekday dates present in the sequence equals the number of
weekdays in the inclusive span from the first to the last date. -/
theorem findGaps_partition :
    (∀ D : List Nat, D.length < 2 → findGaps D = []) ∧
    (∀ (d0 : Nat) (rest : List Nat),
      List.Chain' (· < ·) (d0 :: rest) → 2 ≤ (d0 :: rest).length →
      (∀ g ∈ findGaps (d0 :: rest), 0 < g.days) ∧
      ((findGaps (d0 :: rest)).map Gap.days).sum
          + ((d0 :: rest).filter (fun d => isTradingDay d)).length
        = weekdaysInSpan d0 ((d0 :: rest).getLast (by simp))) := by
  constructor
  · intro D hD
    match D with
    | [] => rfl
    | [_] => rfl
    | a :: b :: t =>
        simp only [List.length_cons] at hD
        omega
  · intro d0 rest hch hlen
    have hc : List.Chain (· < ·) d0 rest := hch
    match rest with
    | [] => simp at hlen
    | d1 :: rest' =>
      have hfind : findGaps (d0 :: d1 :: rest') = findGapsAux d0 (d1 :: rest') := rfl
      constructor
      · rw [hfind]
        exact findGapsAux_days_pos d0 (d1 :: rest')
      · rw [hfind]
        have hsum := findGapsAux_sum d0 (d1 :: rest') hc
        have hle : d0 ≤ (d0 :: d1 :: rest').getLast (by simp) :=
          chain_le_getLast d0 (d1 :: rest') hc
        rw [List.getLast_cons (by simp)] at hle hsum ⊢
        set L := (d1 :: rest').getLast (by simp) with hL
        have hspan : weekdaysInSpan d0 L
            = (if isTradingDay d0 then 1 else 0) + wkCount (d0 + 1) (L - d0) := by
          rw [weekdaysInSpan]
          have h1 : L + 1 - d0 = (L - d0) + 1 := by omega
          rw [h1, Nat.add_comm (L - d0) 1, wkCount_add]
          simp [wkCount]
        rw [hspan]
        have hfl : ((d0 :: d1 :: rest').filter (fun d => isTradingDay d)).length
            = (if isTradingDay d0 then 1 else 0)
                + ((d1 :: rest').filter (fun d => isTradingDay d)).length := by
          rw [List.filter_cons]
          by_cases hd : isTradingDay d0 <;> simp [hd, Nat.add_comm]
        rw [hfl]
        omega

/-- Witness for C3 at the concrete sequence [2024-01-05, 2024-01-10]. -/
theorem findGaps_partition_witness :
    List.Chain' (· < ·) [daysFromCivil 2024 1 5, daysFromCivil 2024 1 10] ∧
    2 ≤ ([daysFromCivil 2024 1 5, daysFromCivil 2024 1 10] : List Nat).length ∧
    ((∀ g ∈ findGaps [daysFromCivil 2024 1 5, daysFromCivil 2024 1 10], 0 < g.days) ∧
      ((findGaps [daysFromCivil 2024 1 5, daysFromCivil 2024 1 10]).map Gap.days).sum
          + (([daysFromCivil 2024 1 5, daysFromCivil 2024 1 10] : List Nat).filter
              (fun d => isTradingDay d)).length
        = weekdaysInSpan (daysFromCivil 2024 1 5)
            (([daysFromCivil 2024 1 5, daysFromCivil 2024 1 10] : List Nat).getLast (by simp))) :=
  ⟨List.chain'_cons.mpr ⟨by decide, List.chain'_singleton _⟩, by decide,
    findGaps_partition.2 (daysFromCivil 2024 1 5) [daysFromCivil 2024 1 10]
      (List.chain'_cons.mpr ⟨by decide, List.chain'_singleton _⟩) (by decide)⟩

lemma mem_mergeParquet {α : Type} (key : α → Nat) (A B : List α) (r : α) :
    r ∈ mergeParquet key (some A) B ↔ r ∈ B ∨ (r ∈ A ∧ key r ∉ B.map key) := by
  rw [mergeParquet]
  rw [(List.perm_insertionSort _ _).mem_iff, List.mem_append, List.mem_filter]
  simp [or_comm]

/-- C1: merging an internally unique-by-date incoming series B into an
internally unique-by-date existing series A gives a series sorted strictly
ascending by date whose dates are exactly the union of A's and B's dates;
on a date present in both the result holds B's row, on a date present in
only one input it holds that input's row. -/
theorem mergeParquet_spec {α : Type} (key : α → Nat) (A B : List α)
    (hA : (A.map key).Nodup) (hB : (B.map key).Nodup) (hBne : B ≠ []) :
    ((mergeParquet key (some A) B).map key).Pairwise (· < ·) ∧
    (∀ k : Nat, k ∈ (mergeParquet key (some A) B).map key ↔
      k ∈ A.map key ∨ k ∈ B.map key) ∧
    (∀ r : α, r ∈ mergeParquet key (some A) B ↔
      r ∈ B ∨ (r ∈ A ∧ key r ∉ B.map key)) := by
  have _hne := hBne
  set F := A.filter fun r => decide (key r ∉ B.map key) with hF
  have hperm : List.Perm (mergeParquet key (some A) B) (F ++ B) := by
    rw [mergeParquet]
    exact List.perm_insertionSort _ _
  have hmemF : ∀ r : α, r ∈ F ↔ r ∈ A ∧ key r ∉ B.map key := by
    intro r
    rw [hF, List.mem_filter]
    simp
  -- key-level membership
  have hkey : ∀ k : Nat, k ∈ (mergeParquet key (some A) B).map key ↔
      k ∈ A.map key ∨ k ∈ B.map key := by
    intro k
    rw [(hperm.map key).mem_iff, List.map_append, List.mem_append]
    constructor
    · rintro (hk | hk)
      · obtain ⟨r, hrF, rfl⟩ := List.mem_map.1 hk
        exact Or.inl (List.mem_map_of_mem key ((hmemF r).1 hrF).1)
      · exact Or.inr hk
    · rintro (hk | hk)
      · by_cases hkB : k ∈ B.map key
        · exact Or.inr hkB
        · obtain ⟨r, hrA, rfl⟩ := List.mem_map.1 hk
          exact Or.inl (List.mem_map_of_mem key ((hmemF r).2 ⟨hrA, hkB⟩))
      · exact Or.inr hk
  refine ⟨?_, hkey, fun r => mem_mergeParquet key A B r⟩
  -- sortedness: the insertion sort is sorted for ≤ on keys, and the keys
  -- are pairwise distinct, hence strictly ascending
  haveI htot : IsTotal α (fun a b => key a ≤ key b) :=
    ⟨fun a b => Nat.le_total (key a) (key b)⟩
  haveI htrans : IsTrans α (fun a b => key a ≤ key b) :=
    ⟨fun _ _ _ hab hbc => Nat.le_trans hab hbc⟩
  have hsorted : (mergeParquet key (some A) B).Pairwise (fun a b => key a ≤ key b) := by
    rw [mergeParquet]
    exact List.sorted_insertionSort _ _
  have hFsub : F.Sublist A := List.filter_sublist A
  have hFnodup : (F.map key).Nodup := (hFsub.map key).nodup hA
  have hdisj : ∀ k ∈ F.map key, k ∉ B.map key := by
    intro k hk
    obtain ⟨r, hrF, rfl⟩ := List.mem_map.1 hk
    exact ((hmemF r).1 hrF).2
  have hnodup0 : ((F ++ B).map key).Nodup := by
    rw [List.map_append, List.nodup_append]
    exact ⟨hFnodup, hB, fun k hk => hdisj k hk⟩
  have hnodup : ((mergeParquet key (some A) B).map key).Nodup :=
    ((hperm.map key).nodup_iff).2 hnodup0
  have hsortedKeys : List.Sorted (· ≤ ·) ((mergeParquet key (some A) B).map key) :=
    List.pairwise_map.2 hsorted
  exact hsortedKeys.lt_of_le hnodup

/-- Witness for C1: rows are (date, payload) pairs keyed on the date;
A = [(1,10),(2,20)], B = [(2,99),(3,30)]. -/
theorem mergeParquet_spec_witness :
    (([(1, 10), (2, 20)] : List (Nat × Nat)).map Prod.fst).Nodup ∧
    (([(2, 99), (3, 30)] : List (Nat × Nat)).map Prod.fst).Nodup ∧
    ([(2, 99), (3, 30)] : List (Nat × Nat)) ≠ [] ∧
    (((mergeParquet Prod.fst (some [(1, 10), (2, 20)]) [(2, 99), (3, 30)]).map
        Prod.fst).Pairwise (· < ·) ∧
      (∀ k : Nat,
        k ∈ (mergeParquet Prod.fst (some [(1, 10), (2, 20)]) [(2, 99), (3, 30)]).map Prod.fst ↔
        k ∈ ([(1, 10), (2, 20)] : List (Nat × Nat)).map Prod.fst ∨
        k ∈ ([(2, 99), (3, 30)] : List (Nat × Nat)).map Prod.fst) ∧
      (∀ r : Nat × Nat,
        r ∈ mergeParquet Prod.fst (some [(1, 10), (2, 20)]) [(2, 99), (3, 30)] ↔
        r ∈ ([(2, 99), (3, 30)] : List (Nat × Nat)) ∨
        (r ∈ ([(1, 10), (2, 20)] : List (Nat × Nat)) ∧
          Prod.fst r ∉ ([(2, 99), (3, 30)] : List (Nat × Nat)).map Prod.fst))) :=
  ⟨by decide, by decide, by decide,
    mergeParquet_spec Prod.fst [(1, 10), (2, 20)] [(2, 99), (3, 30)]
      (by decide) (by decide) (by decide)⟩

/-- C9: an empty incoming batch is a no-op, not an error: `mergeDaily`
with zero rows, `writeDaily` with zero rows, and the store step of
`Stocker.fetch` after a fetch that returned zero records all leave the
persisted series and the metadata row (its last-update timestamp
included) exactly as they were. -/
theorem empty_incoming_noop {α : Type} (key : α → Nat) (now : Nat)
    (u : Bool) (st : StoreState α) :
    mergeDaily key now st [] = st ∧
    writeDaily key now st [] = st ∧
    fetchStoreStep key now u st [] = st :=
  ⟨rfl, rfl, rfl⟩

/-- C7 fails on the code: merging incoming rows [(20, 1)] into an existing
series [(10, 0)] produces the persisted series [(10,0), (20,1)] whose
earliest date is 10, yet `updateMetadata` records `first_trade_date = 20`
(the incoming batch's minimum), because it reduces the dates from the
incoming argument while taking the record count from the full file. -/
theorem mergeDaily_metadata_stale :
    (mergeDaily Prod.fst 99 { series := some [(10, 0)], metadata := none }
        [(20, 1)]).series = some [(10, 0), (20, 1)] ∧
    (mergeDaily Prod.fst 99 { series := some [(10, 0)], metadata := none }
        [(20, 1)]).metadata
      = some { firstTradeDate := 20, lastTradeDate := 20, lastUpdate := 99,
               dataSource := "eod", recordCount := 2 } ∧
    (20 : Nat) ≠ 10 := by
  refine ⟨rfl, ?_, by decide⟩
  rfl

/-- C4: with an existing series whose dates show no gaps and at least one
row, `updateSmart` plans a TAIL fetch with `update = true` and start one
day after the series' last date, and `Stocker.fetch` passes exactly that
start to `fetchDaily`. -/
theorem updateSmart_tail {α : Type} (key : α → Nat) (st : StoreState α)
    (data : List α) (hs : st.series = some data) (hne : data ≠ [])
    (hng : findGaps (data.map key) = []) :
    updateSmartPlan key st
      = some { start := some ((data.map key).getLast (by simpa using hne) + 1),
               end_ := none, update := true } ∧
    fetchDailyArgs (updateSmartPlan key st)
      = (some ((data.map key).getLast (by simpa using hne) + 1), none) := by
  have hmne : data.map key ≠ [] := by simpa using hne
  have hplan : updateSmartPlan key st
      = some { start := some ((data.map key).getLast hmne + 1),
               end_ := none, update := true } := by
    rw [updateSmartPlan, hs]
    simp only [hng, List.length_nil, Nat.lt_irrefl, if_false]
    rw [List.getLast?_eq_getLast (data.map key) hmne]
  exact ⟨hplan, by rw [hplan]; rfl⟩

/-- Witness for C4: series dates [2024-01-09, 2024-01-10] (Tue, Wed — no
gap); the planned start is 2024-01-11. -/
theorem updateSmart_tail_witness :
    (some [daysFromCivil 2024 1 9, daysFromCivil 2024 1 10] :
        Option (List Nat)) = some [daysFromCivil 2024 1 9, daysFromCivil 2024 1 10] ∧
    ([daysFromCivil 2024 1 9, daysFromCivil 2024 1 10] : List Nat) ≠ [] ∧
    findGaps (([daysFromCivil 2024 1 9, daysFromCivil 2024 1 10] : List Nat).map id) = [] ∧
    updateSmartPlan id
        { series := some [daysFromCivil 2024 1 9, daysFromCivil 2024 1 10],
          metadata := none }
      = some { start := some (daysFromCivil 2024 1 11), end_ := none, update := true } := by
  refine ⟨rfl, by decide, by decide, ?_⟩
  rw [(updateSmart_tail id
      { series := some [daysFromCivil 2024 1 9, daysFromCivil 2024 1 10],
        metadata := none }
      [daysFromCivil 2024 1 9, daysFromCivil 2024 1 10]
      rfl (by decide) (by decide)).1]
  decide

/-- C5: with an existing series whose dates show at least one gap,
`updateSmart` plans a BACKFILL fetch with `update = true` and no dates,
and the fetch is issued with the start argument unset. -/
theorem updateSmart_backfill {α : Type} (key : α → Nat) (st : StoreState α)
    (data : List α) (hs : st.series = some data)
    (hg : findGaps (data.map key) ≠ []) :
    updateSmartPlan key st = some { start := none, end_ := none, update := true } ∧
    (fetchDailyArgs (updateSmartPlan key st)).1 = none := by
  have hlen : 0 < (findGaps (data.map key)).length := List.length_pos.2 hg
  have hplan : updateSmartPlan key st
      = some { start := none, end_ := none, update := true } := by
    rw [updateSmartPlan, hs]
    simp [hlen]
  exact ⟨hplan, by rw [hplan]; rfl⟩

/-- Witness for C5: series dates [2024-01-05, 2024-01-10], which contain a
gap. -/
theorem updateSmart_backfill_witness :
    (some [daysFromCivil 2024 1 5, daysFromCivil 2024 1 10] :
        Option (List Nat)) = some [daysFromCivil 2024 1 5, daysFromCivil 2024 1 10] ∧
    findGaps (([daysFromCivil 2024 1 5, daysFromCivil 2024 1 10] : List Nat).map id) ≠ [] ∧
    updateSmartPlan id
        { series := some [daysFromCivil 2024 1 5, daysFromCivil 2024 1 10],
          metadata := none }
      = some { start := none, end_ := none, update := true } :=
  ⟨rfl, by decide,
    (updateSmart_backfill id
      { series := some [daysFromCivil 2024 1 5, daysFromCivil 2024 1 10],
        metadata := none }
      [daysFromCivil 2024 1 5, daysFromCivil 2024 1 10]
      rfl (by decide)).1⟩

/-- C6 fails on the code: with `--update` set, an existing series, and a
metadata row whose last-update day is 200, `FetchCommand.execute` replaces
the explicit start 100 by 201 (last-update + 1 day) before calling
`stocker.fetch`. -/
theorem fetchCommand_overrides_explicit_start :
    fetchCommandAction (α := Nat) (some 100) none true false
        { series := some [50],
          metadata := some { firstTradeDate := 50, lastTradeDate := 50,
                             lastUpdate := 200, dataSource := "eod",
                             recordCount := 1 } }
      = CliAction.fetch { start := some 201, end_ := none, update := true } ∧
    some (201 : Nat) ≠ some (100 : Nat) :=
  ⟨rfl, by decide⟩

/-- C6 amended: an explicit end always reaches the issued fetch verbatim,
and an explicit start does too — except when `--update` is set, the
symbol's data exists, and a metadata row is present, in which case the CLI
replaces the start by the metadata's last-update day + 1; `Stocker.fetch`
itself always passes its options verbatim to `fetchDaily`. -/
theorem fetchCommand_explicit_range {α : Type} (s e : Option Nat)
    (update force : Bool) (st : StoreState α) :
    (∀ o, fetchCommandAction s e update force st = CliAction.fetch o →
      o.end_ = e ∧ o.update = update) ∧
    ((update = false ∨ st.series = none ∨ st.metadata = none) →
      ∀ o, fetchCommandAction s e update force st = CliAction.fetch o →
        o.start = s) ∧
    (∀ m, update = true → st.series.isSome = true → st.metadata = some m →
      fetchCommandAction s e update force st
        = CliAction.fetch { start := some (m.lastUpdate + 1), end_ := e,
                            update := true }) ∧
    (∀ o : FetchOptions, fetchDailyArgs (some o) = (o.start, o.end_)) := by
  refine ⟨?_, ?_, ?_, fun o => rfl⟩
  · intro o h
    rw [fetchCommandAction] at h
    by_cases hsk : (st.series.isSome && !update && !force && st.metadata.isSome) = true
    · simp [hsk] at h
    · simp only [hsk, Bool.false_eq_true, if_false] at h
      injection h with h2
      subst h2
      exact ⟨rfl, rfl⟩
  · intro hcase o h
    rw [fetchCommandAction] at h
    by_cases hsk : (st.series.isSome && !update && !force && st.metadata.isSome) = true
    · simp [hsk] at h
    · simp only [hsk, Bool.false_eq_true, if_false] at h
      injection h with h2
      subst h2
      rcases hcase with hu | hns | hnm
      · simp [hu]
      · simp [hns]
      · simp [hnm]
  · intro m hu hex hm
    rw [fetchCommandAction]
    simp [hu, hex, hm]

/-- Witness for C6's amended statement: the override branch at a concrete
state (explicit start 100 replaced by 201). -/
theorem fetchCommand_explicit_range_witness :
    true = true ∧ (some [(50 : Nat)] : Option (List Nat)).isSome = true ∧
    fetchCommandAction (α := Nat) (some 100) (some 300) true false
        { series := some [50],
          metadata := some { firstTradeDate := 50, lastTradeDate := 50,
                             lastUpdate := 200, dataSource := "eod",
                             recordCount := 1 } }
      = CliAction.fetch { start := some 201, end_ := some 300, update := true } :=
  ⟨rfl, rfl,
    (fetchCommand_explicit_range (some 100) (some 300) true false
        { series := some [50],
          metadata := some { firstTradeDate := 50, lastTradeDate := 50,
                             lastUpdate := 200, dataSource := "eod",
                             recordCount := 1 } }).2.2.1
      { firstTradeDate := 50, lastTradeDate := 50, lastUpdate := 200,
        dataSource := "eod", recordCount := 1 } rfl rfl rfl⟩

/-- C10 fails on the code: a symbol whose parquet file exists but whose
`stock_metadata` row is absent is fetched, not skipped, even with
`update = false` and `force = false` and no explicit dates. -/
theorem fetchCommand_fetches_without_metadata :
    fetchCommandAction (α := Nat) none none false false
        { series := some [5], metadata := none }
      = CliAction.fetch { start := none, end_ := none, update := false } ∧
    ∀ msg : String,
      fetchCommandAction (α := Nat) none none false false
          { series := some [5], metadata := none }
        ≠ CliAction.skip msg := by
  refine ⟨rfl, ?_⟩
  intro msg h
  rw [show fetchCommandAction (α := Nat) none none false false
      { series := some [5], metadata := none }
      = CliAction.fetch { start := none, end_ := none, update := false }
    from rfl] at h
  exact CliAction.noConfusion h

/-- C10 amended: with existing data, `update = false`, `force = false`,
and a metadata row present, no fetch is issued and the user is told the
symbol was skipped and why. (This holds whatever explicit dates were
passed; without a metadata row the command falls through to a fetch.) -/
theorem fetchCommand_skip_existing {α : Type} (s e : Option Nat)
    (st : StoreState α) (hex : st.series.isSome = true)
    (hmeta : st.metadata.isSome = true) :
    fetchCommandAction s e false false st
      = CliAction.skip "Already exists. Use --update or --force to fetch." := by
  rw [fetchCommandAction]
  simp [hex, hmeta]

/-- Witness for C10's amended statement. -/
theorem fetchCommand_skip_existing_witness :
    (some [(5 : Nat)] : Option (List Nat)).isSome = true ∧
    (some { firstTradeDate := 5, lastTradeDate := 5, lastUpdate := 9,
            dataSource := "eod", recordCount := 1 } : Option Metadata).isSome = true ∧
    fetchCommandAction (α := Nat) none none false false
        { series := some [5],
          metadata := some { firstTradeDate := 5, lastTradeDate := 5,
                             lastUpdate := 9, dataSource := "eod",
                             recordCount := 1 } }
      = CliAction.skip "Already exists. Use --update or --force to fetch." :=
  ⟨rfl, rfl,
    fetchCommand_skip_existing none none
      { series := some [5],
        metadata := some { firstTradeDate := 5, lastTradeDate := 5,
                           lastUpdate := 9, dataSource := "eod",
                           recordCount := 1 } } rfl rfl⟩

/-- C8 fails on the code: `writeParquet` — used by `writeDaily` for every
full overwrite — copies straight to the final path, so a crash mid-copy
leaves the target truncated: neither the pre-write series [(1,1)] nor the
new series [(2,2)] is readable. -/
theorem writeParquet_not_atomic :
    (runSteps { target := FileContent.complete [(1, 1)], temp := FileContent.absent }
        ((writeParquetSteps ([(2, 2)] : List (Nat × Nat))).take 1)).target
      = FileContent.truncated ∧
    ∀ rows : List (Nat × Nat),
      (runSteps { target := FileContent.complete [(1, 1)], temp := FileContent.absent }
          ((writeParquetSteps ([(2, 2)] : List (Nat × Nat))).take 1)).target
        ≠ FileContent.complete rows := by
  refine ⟨rfl, ?_⟩
  intro rows h
  have hred : (runSteps
      { target := FileContent.complete [(1, 1)],
        temp := FileContent.absent }
      ((writeParquetSteps ([(2, 2)] : List (Nat × Nat))).take 1)).target
      = FileContent.truncated := rfl
  rw [hred] at h
  exact FileContent.noConfusion h

/-- C8 amended: a merge onto an **existing** file does write to a
temporary path and atomically rename, so after any prefix of its events —
including a crash between the temp-file write and the rename — the target
holds either the complete pre-merge series or the complete post-merge
series; full overwrites (`writeParquet`) and merges with no existing file
copy straight to the target instead. -/
theorem mergeParquet_existing_atomic {α : Type} (key : α → Nat)
    (A newData : List α) (i : Nat) :
    (runSteps { target := FileContent.complete A, temp := FileContent.absent }
        ((mergeParquetSteps key (some A) newData).take i)).target
      = FileContent.complete A ∨
    (runSteps { target := FileContent.complete A, temp := FileContent.absent }
        ((mergeParquetSteps key (some A) newData).take i)).target
      = FileContent.complete (mergeParquet key (some A) newData) :=
  match i with
  | 0 => Or.inl rfl
  | 1 => Or.inl rfl
  | 2 => Or.inl rfl
  | _ + 3 => by
      right
      rw [List.take_of_length_le (by simp [mergeParquetSteps])]
      rfl

end Stocker
